import Mathlib

/-!
Shallow embedding of the quiz engine of `src/app/page.tsx` (an Arabic
verb-conjugation drill): the question sequencer, the distractor generator,
the round timer and the game state machine, together with proofs of the
specification's claims about them.

JavaScript conventions are modelled as follows: a JS object's `forms` field
becomes an association list in declared key order (`Object.keys` and
`Object.values` enumerate string keys in insertion order); `Math.random`
driven shuffles (`.sort(() => Math.random() - 0.5)`) become oracle
parameters, constrained in theorems to produce a permutation of their input
(an ECMAScript sort, even with an inconsistent comparator, returns some
rearrangement of its input elements); React state updates become explicit
record updates; `setTimeout` scheduling becomes an explicit optional delay
value returned next to the new state.
-/

/-- A vocabulary entry (interface `WordData`, source lines 26-32): English
gloss, Arabic root, and the grammatical forms as an association list in
declared key order. -/
structure WordData where
  english : String
  root : String
  forms : List (String × String)
deriving Repr, DecidableEq, Inhabited

/-- A question coordinate, the inline record type
`(wordIndex : number, formIndex : number)` of the source. -/
structure QuestionCoordinate where
  wordIndex : Nat
  formIndex : Nat
deriving Repr, DecidableEq, Inhabited

/-- The three ordering modes (source line 76). -/
inductive GameMode where
  | sequential
  | wordRandom
  | fullyRandom
deriving Repr, DecidableEq, Inhabited

/-- `generateWrongAnswers` (source lines 35-59).  Step 1 walks
`Object.values(currentWord.forms)` appending every value different from the
correct answer while fewer than 3 are collected; step 2, entered only when
fewer than 3 were collected, walks the store appending each other word's
value at the same form key when it is truthy (defined and non-empty), not
already collected, and fewer than 3 are collected.  The step-2 guard
`word !== currentWord` is JavaScript reference inequality; `currentWord` is
the array element at the current word index and the entries of a JSON-parsed
array are pairwise distinct objects, so it is modelled as inequality of
positions and the function takes the current word's index. -/
def generateWrongAnswers (correctAnswer : String) (currentWordIndex : Nat)
    (currentForm : String) (wordsData : List WordData) : List String :=
  let currentWord := wordsData.getD currentWordIndex default
  let allForms := currentWord.forms.map Prod.snd
  let wrongAnswers := allForms.foldl
    (fun acc form =>
      if form ≠ correctAnswer ∧ acc.length < 3 then acc ++ [form] else acc) []
  let wrongAnswers :=
    if wrongAnswers.length < 3 then
      wordsData.enum.foldl
        (fun acc p =>
          if p.1 ≠ currentWordIndex then
            match p.2.forms.lookup currentForm with
            | some v =>
                if v ≠ "" ∧ v ∉ acc ∧ acc.length < 3 then acc ++ [v] else acc
            | none => acc
          else acc)
        wrongAnswers
    else wrongAnswers
  wrongAnswers.take 3

/-- The sequential question queue (source lines 109-116): words in store
order, and for each word its forms in declared key order. -/
def seqQueue (wordsData : List WordData) : List QuestionCoordinate :=
  (List.range wordsData.length).flatMap fun wordIndex =>
    (List.range (wordsData.getD wordIndex default).forms.length).map fun formIndex =>
      ⟨wordIndex, formIndex⟩

/-- `generateQuestionQueue` (source lines 104-144).  The two random modes
consume shuffle oracles: `wordOrder` stands for the shuffled word-index
array, `formOrder` for the per-word shuffled form-index arrays, and
`fullShuffle` for the whole-queue shuffle of fully-random mode. -/
def generateQuestionQueue (wordsData : List WordData) (gameMode : GameMode)
    (wordOrder : List Nat) (formOrder : Nat → List Nat)
    (fullShuffle : List QuestionCoordinate → List QuestionCoordinate) :
    List QuestionCoordinate :=
  if wordsData.length = 0 then []
  else
    match gameMode with
    | GameMode.sequential => seqQueue wordsData
    | GameMode.wordRandom =>
        wordOrder.flatMap fun wordIndex =>
          (formOrder wordIndex).map fun formIndex =>
            (⟨wordIndex, formIndex⟩ : QuestionCoordinate)
    | GameMode.fullyRandom => fullShuffle (seqQueue wordsData)

/-- The mutable session state of the component (source lines 62-78).
`totalQuestions` is the number of questions answered so far and `choices`
the displayed choice set. -/
structure GameState where
  currentWordIndex : Nat
  currentFormIndex : Nat
  score : Nat
  totalQuestions : Nat
  selectedAnswer : Option String
  showResult : Bool
  gameComplete : Bool
  choices : List String
  timeLeft : Nat
  bombExploded : Bool
  showBombWarning : Bool
  gameMode : GameMode
  questionQueue : List QuestionCoordinate
  currentQueueIndex : Nat
  loading : Bool
deriving Repr, DecidableEq

/-- The `useState` initial values (source lines 62-78): a fresh session in
sequential mode with the vocabulary still loading. -/
def initialState : GameState where
  currentWordIndex := 0
  currentFormIndex := 0
  score := 0
  totalQuestions := 0
  selectedAnswer := none
  showResult := false
  gameComplete := false
  choices := []
  timeLeft := 15
  bombExploded := false
  showBombWarning := false
  gameMode := GameMode.sequential
  questionQueue := []
  currentQueueIndex := 0
  loading := true

/-- `getCurrentQuestion` (source lines 147-183): resolve the current
coordinate to its word and form key, via the queue in the random modes and
via the two counters in sequential mode.  The falsiness test `!formKey`
also rejects an empty-string key. -/
def getCurrentQuestion (wordsData : List WordData) (s : GameState) :
    Option (QuestionCoordinate × WordData × String) :=
  if wordsData.length = 0 then none
  else if s.gameMode ≠ GameMode.sequential ∧ s.questionQueue.length > 0 then
    match s.questionQueue[s.currentQueueIndex]? with
    | none => none
    | some c =>
      match wordsData[c.wordIndex]? with
      | none => none
      | some w =>
        match (w.forms.map Prod.fst)[c.formIndex]? with
        | none => none
        | some key => if key = "" then none else some (c, w, key)
  else
    match wordsData[s.currentWordIndex]? with
    | none => none
    | some w =>
      match (w.forms.map Prod.fst)[s.currentFormIndex]? with
      | none => none
      | some key =>
          if key = "" then none
          else some (⟨s.currentWordIndex, s.currentFormIndex⟩, w, key)

/-- The derived `correctAnswer` constant (source line 188): the current
word's value at the current form key, when a question resolves. -/
def correctAnswerOf (wordsData : List WordData) (s : GameState) : Option String :=
  match getCurrentQuestion wordsData s with
  | some (_, w, key) => w.forms.lookup key
  | none => none

/-- The choice-generation effect (source lines 214-225): when the game is
neither complete nor exploded and the current question resolves with a
truthy correct answer, build the choice set (the correct answer followed by
the wrong answers, then shuffled), reset the timer to 15 and clear the
warning flag.  `shuffle` stands for `.sort(() => Math.random() - 0.5)`. -/
def presentQuestion (wordsData : List WordData)
    (shuffle : List String → List String) (s : GameState) : GameState :=
  if s.gameComplete = false ∧ s.bombExploded = false ∧ wordsData.length > 0 then
    match getCurrentQuestion wordsData s with
    | some (c, w, key) =>
      match w.forms.lookup key with
      | some correctAnswer =>
          if correctAnswer ≠ "" then
            let wrongAnswers :=
              generateWrongAnswers correctAnswer c.wordIndex key wordsData
            { s with choices := shuffle (correctAnswer :: wrongAnswers),
                     timeLeft := 15, showBombWarning := false }
          else s
      | none => s
    | none => s
  else s

/-- The timer effect (source lines 195-211).  While unanswered, not
terminal, not loading and time remains, one tick decrements the clock by
one (raising the warning flag from five seconds down); when the clock shows
zero while still unanswered, the bomb explodes. -/
def timerTick (s : GameState) : GameState :=
  if s.showResult = false ∧ s.gameComplete = false ∧ s.bombExploded = false ∧
      s.timeLeft > 0 ∧ s.loading = false then
    { s with timeLeft := s.timeLeft - 1,
             showBombWarning := if s.timeLeft ≤ 5 then true else s.showBombWarning }
  else if s.timeLeft = 0 ∧ s.showResult = false ∧ s.bombExploded = false ∧
      s.loading = false then
    { s with bombExploded := true }
  else s

/-- `handleAnswerSelect` (source lines 227-246).  A no-op while the result
is shown; otherwise records the selection, reveals the result, counts the
question, adds a point exactly when the selection matches the derived
`correctAnswer`, and schedules the auto-advance: 1500 ms when correct,
2500 ms when incorrect.  The returned option is the scheduled delay. -/
def handleAnswerSelect (correctAnswer : Option String) (s : GameState)
    (answer : String) : GameState × Option Nat :=
  if s.showResult then (s, none)
  else
    let s1 := { s with selectedAnswer := some answer, showResult := true,
                       totalQuestions := s.totalQuestions + 1 }
    if some answer = correctAnswer then
      ({ s1 with score := s1.score + 1 }, some 1500)
    else (s1, some 2500)

/-- `handleNext` (source lines 248-276): clear the selection and the result
flag, then advance — in the random modes by stepping the queue index while
one remains, in sequential mode by stepping the form counter and rolling
into the next word — and mark the game complete when no further coordinate
exists.  The JS comparison `i < len - 1` on numbers is `i + 1 < len`. -/
def handleNext (wordsData : List WordData) (s : GameState) : GameState :=
  let s0 := { s with selectedAnswer := (none : Option String), showResult := false }
  if s0.gameMode ≠ GameMode.sequential then
    if s0.currentQueueIndex + 1 < s0.questionQueue.length then
      { s0 with currentQueueIndex := s0.currentQueueIndex + 1 }
    else { s0 with gameComplete := true }
  else
    let formKeys := ((wordsData.getD s0.currentWordIndex default).forms).map Prod.fst
    if s0.currentFormIndex + 1 < formKeys.length then
      { s0 with currentFormIndex := s0.currentFormIndex + 1 }
    else if s0.currentWordIndex + 1 < wordsData.length then
      { s0 with currentWordIndex := s0.currentWordIndex + 1, currentFormIndex := 0 }
    else { s0 with gameComplete := true }

/-- `changeGameMode` (source lines 278-302): set the new mode, rebuild the
queue (random target modes) or reset the counters (sequential target mode),
and clear every session counter and flag.  The call to
`generateQuestionQueue` inside the handler still sees the render's
`gameMode` value — React state updates are applied on the next render — so
the queue is built with the PREVIOUS mode `s.gameMode`, not `newMode`. -/
def changeGameMode (wordsData : List WordData) (wordOrder : List Nat)
    (formOrder : Nat → List Nat)
    (fullShuffle : List QuestionCoordinate → List QuestionCoordinate)
    (s : GameState) (newMode : GameMode) : GameState :=
  let s1 := { s with gameMode := newMode }
  let s2 :=
    if newMode ≠ GameMode.sequential then
      { s1 with
        questionQueue :=
          generateQuestionQueue wordsData s.gameMode wordOrder formOrder fullShuffle,
        currentQueueIndex := 0 }
    else
      { s1 with currentWordIndex := 0, currentFormIndex := 0, currentQueueIndex := 0 }
  { s2 with score := 0, totalQuestions := 0, selectedAnswer := none,
            showResult := false, gameComplete := false, timeLeft := 15,
            bombExploded := false, showBombWarning := false }

/-- `resetGame` (source lines 304-323): regenerate the queue (random modes,
with the current mode — no mode change is pending here) or reset the
counters (sequential mode), and clear every session counter and flag. -/
def resetGame (wordsData : List WordData) (wordOrder : List Nat)
    (formOrder : Nat → List Nat)
    (fullShuffle : List QuestionCoordinate → List QuestionCoordinate)
    (s : GameState) : GameState :=
  let s1 :=
    if s.gameMode ≠ GameMode.sequential then
      { s with
        questionQueue :=
          generateQuestionQueue wordsData s.gameMode wordOrder formOrder fullShuffle,
        currentQueueIndex := 0 }
    else
      { s with currentWordIndex := 0, currentFormIndex := 0 }
  { s1 with score := 0, totalQuestions := 0, selectedAnswer := none,
            showResult := false, gameComplete := false, timeLeft := 15,
            bombExploded := false, showBombWarning := false }

/-- One externally triggered event of the session: an answer click, the
auto-advance, a timer tick, the choice-generation effect, a mode switch or
a reset.  Shuffle oracles travel with the events that consume them. -/
inductive GameEvent where
  | answer (a : String)
  | next
  | tick
  | present (shuffle : List String → List String)
  | modeChange (m : GameMode) (wordOrder : List Nat) (formOrder : Nat → List Nat)
      (fullShuffle : List QuestionCoordinate → List QuestionCoordinate)
  | reset (wordOrder : List Nat) (formOrder : Nat → List Nat)
      (fullShuffle : List QuestionCoordinate → List QuestionCoordinate)

/-- Apply one event to the session state.  An answer click compares against
the derived `correctAnswer` of the current question, exactly as the
component does. -/
def stepEvent (wordsData : List WordData) (s : GameState) (e : GameEvent) :
    GameState :=
  match e with
  | GameEvent.answer a => (handleAnswerSelect (correctAnswerOf wordsData s) s a).1
  | GameEvent.next => handleNext wordsData s
  | GameEvent.tick => timerTick s
  | GameEvent.present shuffle => presentQuestion wordsData shuffle s
  | GameEvent.modeChange m wo fo fs => changeGameMode wordsData wo fo fs s m
  | GameEvent.reset wo fo fs => resetGame wordsData wo fo fs s

/-- Run a sequence of events from a state. -/
def runEvents (wordsData : List WordData) (s : GameState)
    (es : List GameEvent) : GameState :=
  es.foldl (stepEvent wordsData) s

/-- The full cross product of word and form indices, the specification's
reference ordering: all pairs in lexicographic order. -/
def fullCrossProduct (wordCount formsPerWord : Nat) : List QuestionCoordinate :=
  ((List.range wordCount) ×ˢ (List.range formsPerWord)).map fun p => ⟨p.1, p.2⟩

/-- Lexicographic order on question coordinates. -/
def qcLex (a b : QuestionCoordinate) : Prop :=
  a.wordIndex < b.wordIndex ∨ (a.wordIndex = b.wordIndex ∧ a.formIndex < b.formIndex)

/-- A sample lesson set of 2 verbs with 3 forms each, for the concrete
examples of the specification. -/
def sampleStore : List WordData :=
  [⟨"to do", "fcl", [("past", "a1"), ("present", "a2"), ("noun", "a3")]⟩,
   ⟨"to go", "dhb", [("past", "b1"), ("present", "b2"), ("noun", "b3")]⟩]

/-- In sequential mode the queue builder ignores the shuffle oracles and
returns the sequential queue, also on an empty store. -/
theorem generateQuestionQueue_sequential (wd : List WordData) (wo : List Nat)
    (fo : Nat → List Nat)
    (fs : List QuestionCoordinate → List QuestionCoordinate) :
    generateQuestionQueue wd GameMode.sequential wo fo fs = seqQueue wd := by
  unfold generateQuestionQueue
  split
  · rename_i h
    rw [List.length_eq_zero.mp h]
    rfl
  · rfl

/-- C10: invoking answer selection while the result is shown changes
nothing: the state is returned untouched and no auto-advance is
scheduled. -/
theorem c10_answer_during_reveal_noop (co : Option String) (s : GameState)
    (a : String) (h : s.showResult = true) :
    handleAnswerSelect co s a = (s, none) := by
  simp [handleAnswerSelect, h]

/-- Witness for C10 at a concrete revealed state. -/
theorem c10_answer_during_reveal_noop_witness :
    handleAnswerSelect (some "a1") { initialState with showResult := true } "a2"
      = ({ initialState with showResult := true }, none) :=
  c10_answer_during_reveal_noop (some "a1")
    { initialState with showResult := true } "a2" rfl

/-- C4: answering in the answering state records the selection, counts the
question, reveals the result, freezes the clock, adds a point exactly when
the selection equals the correct answer, and schedules the auto-advance
with a strictly shorter delay (1500 ms) when correct than when incorrect
(2500 ms). -/
theorem c4_answer_submission (co : String) (s : GameState) (a : String)
    (h : s.showResult = false) :
    (handleAnswerSelect (some co) s a).1.selectedAnswer = some a ∧
    (handleAnswerSelect (some co) s a).1.totalQuestions = s.totalQuestions + 1 ∧
    (handleAnswerSelect (some co) s a).1.showResult = true ∧
    (handleAnswerSelect (some co) s a).1.timeLeft = s.timeLeft ∧
    (handleAnswerSelect (some co) s a).1.score
      = (if a = co then s.score + 1 else s.score) ∧
    (handleAnswerSelect (some co) s a).2
      = some (if a = co then 1500 else 2500) ∧
    1500 < 2500 := by
  by_cases hc : a = co <;>
    simp [handleAnswerSelect, h, hc]

/-- Witness for C4: a correct and an incorrect answer at a fresh state. -/
theorem c4_answer_submission_witness :
    ((handleAnswerSelect (some "a1") initialState "a1").1.score = 1 ∧
     (handleAnswerSelect (some "a1") initialState "a1").2 = some 1500) ∧
    ((handleAnswerSelect (some "a1") initialState "a2").1.score = 0 ∧
     (handleAnswerSelect (some "a1") initialState "a2").1.totalQuestions = 1 ∧
     (handleAnswerSelect (some "a1") initialState "a2").2 = some 2500) := by
  have h1 := c4_answer_submission "a1" initialState "a1" rfl
  have h2 := c4_answer_submission "a1" initialState "a2" rfl
  refine ⟨⟨?_, ?_⟩, ?_, ?_, ?_⟩
  · simpa using h1.2.2.2.2.1
  · simpa using h1.2.2.2.2.2.1
  · simpa using h2.2.2.2.2.1
  · simpa using h2.2.1
  · simpa using h2.2.2.2.2.2.1

/-- `handleNext` leaves the score and the question counter unchanged. -/
theorem handleNext_counters (wd : List WordData) (s : GameState) :
    (handleNext wd s).score = s.score ∧
    (handleNext wd s).totalQuestions = s.totalQuestions := by
  unfold handleNext
  dsimp only
  split
  · split <;> exact ⟨rfl, rfl⟩
  · split
    · exact ⟨rfl, rfl⟩
    · split <;> exact ⟨rfl, rfl⟩

/-- A timer tick leaves the score and the question counter unchanged. -/
theorem timerTick_counters (s : GameState) :
    (timerTick s).score = s.score ∧
    (timerTick s).totalQuestions = s.totalQuestions := by
  unfold timerTick
  split
  · exact ⟨rfl, rfl⟩
  · split <;> exact ⟨rfl, rfl⟩

/-- The choice-generation effect leaves the score and the question counter
unchanged. -/
theorem presentQuestion_counters (wd : List WordData)
    (shuffle : List String → List String) (s : GameState) :
    (presentQuestion wd shuffle s).score = s.score ∧
    (presentQuestion wd shuffle s).totalQuestions = s.totalQuestions := by
  unfold presentQuestion
  split
  · split
    · split
      · split <;> exact ⟨rfl, rfl⟩
      · exact ⟨rfl, rfl⟩
    · exact ⟨rfl, rfl⟩
  · exact ⟨rfl, rfl⟩

/-- An answer submission preserves the bound of the score by the question
counter. -/
theorem handleAnswerSelect_le (co : Option String) (s : GameState) (a : String)
    (h : s.score ≤ s.totalQuestions) :
    (handleAnswerSelect co s a).1.score ≤ (handleAnswerSelect co s a).1.totalQuestions := by
  unfold handleAnswerSelect
  split
  · exact h
  · dsimp only
    split
    · simpa using Nat.succ_le_succ h
    · simpa using Nat.le_succ_of_le h

/-- Every event preserves the bound of the score by the question counter. -/
theorem stepEvent_le (wd : List WordData) (s : GameState) (e : GameEvent)
    (h : s.score ≤ s.totalQuestions) :
    (stepEvent wd s e).score ≤ (stepEvent wd s e).totalQuestions := by
  cases e with
  | answer a => exact handleAnswerSelect_le _ s a h
  | next =>
      have hc := handleNext_counters wd s
      rw [stepEvent, hc.1, hc.2]; exact h
  | tick =>
      have hc := timerTick_counters s
      rw [stepEvent, hc.1, hc.2]; exact h
  | present shuffle =>
      have hc := presentQuestion_counters wd shuffle s
      rw [stepEvent, hc.1, hc.2]; exact h
  | modeChange m wo fo fs => exact Nat.le_refl 0
  | reset wo fo fs => exact Nat.le_refl 0

/-- C9: after any sequence of events (answer submissions, advances, timer
ticks, question presentations, mode changes and resets) from a fresh
session, the score never exceeds the number of questions answered. -/
theorem c9_score_invariant (wd : List WordData) (es : List GameEvent) :
    (runEvents wd initialState es).score ≤ (runEvents wd initialState es).totalQuestions := by
  suffices h : ∀ (s : GameState), s.score ≤ s.totalQuestions →
      (runEvents wd s es).score ≤ (runEvents wd s es).totalQuestions from
    h initialState (Nat.le_refl 0)
  induction es with
  | nil => intro s hs; exact hs
  | cons e es ih =>
      intro s hs
      exact ih (stepEvent wd s e) (stepEvent_le wd s e hs)

/-- C8 (code bug evidence): switching from sequential mode to fully-random
mode sets the new mode and clears the counters, but the queue installed is
the DETERMINISTIC sequential queue, whatever the shuffle oracles return:
`generateQuestionQueue` is invoked before the mode update is visible, so it
builds the queue for the previous mode and nothing is re-shuffled. -/
theorem c8_mode_change_stale_queue (wd : List WordData) (wo : List Nat)
    (fo : Nat → List Nat)
    (fs : List QuestionCoordinate → List QuestionCoordinate) (s : GameState)
    (h : s.gameMode = GameMode.sequential) :
    (changeGameMode wd wo fo fs s GameMode.fullyRandom).gameMode
        = GameMode.fullyRandom ∧
    (changeGameMode wd wo fo fs s GameMode.fullyRandom).questionQueue
        = seqQueue wd ∧
    (changeGameMode wd wo fo fs s GameMode.fullyRandom).score = 0 ∧
    (changeGameMode wd wo fo fs s GameMode.fullyRandom).totalQuestions = 0 ∧
    (changeGameMode wd wo fo fs s GameMode.fullyRandom).selectedAnswer = none ∧
    (changeGameMode wd wo fo fs s GameMode.fullyRandom).showResult = false ∧
    (changeGameMode wd wo fo fs s GameMode.fullyRandom).gameComplete = false ∧
    (changeGameMode wd wo fo fs s GameMode.fullyRandom).timeLeft = 15 ∧
    (changeGameMode wd wo fo fs s GameMode.fullyRandom).bombExploded = false ∧
    (changeGameMode wd wo fo fs s GameMode.fullyRandom).currentQueueIndex = 0 := by
  unfold changeGameMode
  rw [h]
  simp [generateQuestionQueue_sequential]

/-- Witness for C8: on the sample store, from a fresh sequential session,
switching to fully-random installs exactly the sequential queue, even
though the shuffle oracle passed here reverses its input. -/
theorem c8_mode_change_stale_queue_witness :
    (changeGameMode sampleStore [1, 0] (fun _ => [2, 1, 0]) List.reverse
        initialState GameMode.fullyRandom).questionQueue
      = seqQueue sampleStore :=
  (c8_mode_change_stale_queue sampleStore [1, 0] (fun _ => [2, 1, 0])
    List.reverse initialState rfl).2.1

/-- C5: the round timer.  Presenting a question either installs a fresh
15-second clock or leaves the state untouched; a tick on an unanswered,
non-terminal, loaded question with time remaining decrements the clock by
exactly one and neither reveals nor explodes; a tick on an unanswered
question whose clock shows zero explodes the bomb (times out the session);
and once the result is shown the timer function is the identity — no
further ticks and no timeout while revealed. -/
theorem c5_round_timer (wd : List WordData)
    (shuffle : List String → List String) (s : GameState) :
    ((presentQuestion wd shuffle s).timeLeft = 15 ∨
      presentQuestion wd shuffle s = s) ∧
    (s.showResult = false → s.gameComplete = false → s.bombExploded = false →
      s.loading = false → 0 < s.timeLeft →
        (timerTick s).timeLeft = s.timeLeft - 1 ∧
        (timerTick s).showResult = false ∧
        (timerTick s).bombExploded = false) ∧
    (s.showResult = false → s.bombExploded = false → s.loading = false →
      s.timeLeft = 0 → (timerTick s).bombExploded = true) ∧
    (s.showResult = true → timerTick s = s) := by
  refine ⟨?_, ?_, ?_, ?_⟩
  · unfold presentQuestion
    split
    · split
      · split
        · split
          · exact Or.inl rfl
          · exact Or.inr rfl
        · exact Or.inr rfl
      · exact Or.inr rfl
    · exact Or.inr rfl
  · intro h1 h2 h3 h4 h5
    unfold timerTick
    rw [if_pos ⟨h1, h2, h3, h5, h4⟩]
    exact ⟨rfl, h1, h3⟩
  · intro h1 h3 h4 h0
    unfold timerTick
    rw [if_neg (by rw [h0]; rintro ⟨-, -, -, h, -⟩; exact Nat.lt_irrefl 0 h),
        if_pos ⟨h0, h1, h3, h4⟩]
  · intro h
    unfold timerTick
    rw [if_neg (by rw [h]; rintro ⟨h', -⟩; cases h'),
        if_neg (by rw [h]; rintro ⟨-, h', -⟩; cases h')]

/-- Witness for C5 at concrete states: a running question ticks from 15 to
14, a question at zero explodes, and a revealed question is frozen. -/
theorem c5_round_timer_witness :
    (timerTick { initialState with loading := false }).timeLeft = 14 ∧
    (timerTick { initialState with loading := false, timeLeft := 0 }).bombExploded
      = true ∧
    timerTick { initialState with loading := false, showResult := true }
      = { initialState with loading := false, showResult := true } := by
  refine ⟨?_, ?_, ?_⟩
  · exact ((c5_round_timer [] id { initialState with loading := false }).2.1
      rfl rfl rfl rfl (by decide)).1
  · exact (c5_round_timer [] id
      { initialState with loading := false, timeLeft := 0 }).2.2.1 rfl rfl rfl rfl
  · exact (c5_round_timer [] id
      { initialState with loading := false, showResult := true }).2.2.2 rfl

/-- C6: advancing never moves past the end.  In the queue modes, advancing
from the last coordinate marks the game complete and leaves the position
where it was, and advancing from any in-range position keeps it in range;
in sequential mode, advancing from the last form of the last word marks the
game complete and leaves both counters where they were, and otherwise an
in-range coordinate is advanced to another in-range coordinate (for a store
whose words all carry the same positive number of forms). -/
theorem c6_never_past_end (wd : List WordData) (s : GameState) :
    (s.gameMode ≠ GameMode.sequential →
      (s.questionQueue.length ≤ s.currentQueueIndex + 1 →
        (handleNext wd s).gameComplete = true ∧
        (handleNext wd s).currentQueueIndex = s.currentQueueIndex) ∧
      (s.currentQueueIndex < s.questionQueue.length →
        (handleNext wd s).currentQueueIndex < s.questionQueue.length)) ∧
    (s.gameMode = GameMode.sequential →
      ((wd.getD s.currentWordIndex default).forms.length ≤ s.currentFormIndex + 1 →
       wd.length ≤ s.currentWordIndex + 1 →
        (handleNext wd s).gameComplete = true ∧
        (handleNext wd s).currentWordIndex = s.currentWordIndex ∧
        (handleNext wd s).currentFormIndex = s.currentFormIndex) ∧
      (∀ fpw, 0 < fpw → (∀ w ∈ wd, w.forms.length = fpw) →
       s.currentWordIndex < wd.length → s.currentFormIndex < fpw →
        (handleNext wd s).currentWordIndex < wd.length ∧
        (handleNext wd s).currentFormIndex < fpw)) := by
  constructor
  · intro hmode
    constructor
    · intro hlast
      unfold handleNext
      rw [if_pos (by simpa using hmode),
          if_neg (by simpa using Nat.not_lt.mpr hlast)]
      exact ⟨rfl, rfl⟩
    · intro hin
      unfold handleNext
      rw [if_pos (by simpa using hmode)]
      split
      · next hlt => simpa using hlt
      · simpa using hin
  · intro hmode
    constructor
    · intro hlastf hlastw
      unfold handleNext
      rw [if_neg (by simpa using hmode)]
      dsimp only
      rw [if_neg (by simpa using Nat.not_lt.mpr hlastf),
          if_neg (by simpa using Nat.not_lt.mpr hlastw)]
      exact ⟨rfl, rfl, rfl⟩
    · intro fpw hpos huni hw hf
      unfold handleNext
      rw [if_neg (by simpa using hmode)]
      dsimp only
      have hlen : ((wd.getD s.currentWordIndex default).forms.map Prod.fst).length
          = fpw := by
        rw [List.length_map, List.getD_eq_getElem wd default hw]
        exact huni _ (List.getElem_mem hw)
      split
      · next hlt =>
          refine ⟨by simpa using hw, ?_⟩
          have := hlt
          rw [hlen] at this
          simpa using this
      · split
        · next hwlt => exact ⟨by simpa using hwlt, by simpa using hpos⟩
        · next hlt hwlt =>
            exact ⟨by simpa using hw, by simpa using hf⟩

/-- Witness for C6 on the sample store: advancing from coordinate (1,2) of
the 2-by-3 sequential store completes the game and keeps the counters, and
advancing from (0,0) stays in range. -/
theorem c6_never_past_end_witness :
    ((handleNext sampleStore
        { initialState with currentWordIndex := 1, currentFormIndex := 2 }).gameComplete
      = true) ∧
    ((handleNext sampleStore initialState).currentWordIndex < sampleStore.length ∧
     (handleNext sampleStore initialState).currentFormIndex < 3) := by
  constructor
  · exact (((c6_never_past_end sampleStore
      { initialState with currentWordIndex := 1, currentFormIndex := 2 }).2 rfl).1
        (by decide) (by decide)).1
  · exact ((c6_never_past_end sampleStore initialState).2 rfl).2 3 (by decide)
      (by decide) (by decide) (by decide)

/-- The cross product written as a nested iteration, matching the shape of
the sequential loop. -/
theorem fullCrossProduct_eq (n k : Nat) :
    fullCrossProduct n k
      = (List.range n).flatMap fun wi =>
          (List.range k).map fun fi => (⟨wi, fi⟩ : QuestionCoordinate) := by
  unfold fullCrossProduct
  show ((List.range n).flatMap fun a => (List.range k).map (Prod.mk a)).map _ = _
  rw [List.map_flatMap]
  exact List.flatMap_congr fun wi _ => by rw [List.map_map]; rfl

/-- On a store whose words all carry `fpw` forms, the sequential queue is
exactly the full cross product in lexicographic order. -/
theorem seqQueue_eq_cross (wd : List WordData) (fpw : Nat)
    (huni : ∀ w ∈ wd, w.forms.length = fpw) :
    seqQueue wd = fullCrossProduct wd.length fpw := by
  rw [fullCrossProduct_eq]
  unfold seqQueue
  refine List.flatMap_congr fun wi hwi => ?_
  have hlt : wi < wd.length := List.mem_range.mp hwi
  rw [List.getD_eq_getElem wd default hlt, huni _ (List.getElem_mem hlt)]

/-- The coordinate constructor is injective as a map from pairs. -/
theorem qcOfPair_injective :
    Function.Injective (fun p : Nat × Nat => (⟨p.1, p.2⟩ : QuestionCoordinate)) := by
  rintro ⟨a, b⟩ ⟨c, d⟩ h
  cases h
  rfl

/-- The full cross product has no duplicate coordinates. -/
theorem fullCrossProduct_nodup (n k : Nat) : (fullCrossProduct n k).Nodup :=
  ((List.nodup_range n).product (List.nodup_range k)).map qcOfPair_injective

/-- Membership in the full cross product is exactly coordinate-wise
range membership. -/
theorem mem_fullCrossProduct {n k wi fi : Nat} (hw : wi < n) (hf : fi < k) :
    (⟨wi, fi⟩ : QuestionCoordinate) ∈ fullCrossProduct n k := by
  unfold fullCrossProduct
  exact List.mem_map.mpr ⟨(wi, fi),
    List.pair_mem_product.mpr ⟨List.mem_range.mpr hw, List.mem_range.mpr hf⟩, rfl⟩

/-- The full cross product has length wordCount times formsPerWord. -/
theorem length_fullCrossProduct (n k : Nat) :
    (fullCrossProduct n k).length = n * k := by
  unfold fullCrossProduct
  rw [List.length_map, List.length_product, List.length_range, List.length_range]

/-- C1: on a non-empty store whose words all carry `fpw` forms, every mode
yields a queue that is a permutation of the full cross product of word and
form indices — no duplicates, no omissions, and length exactly
`wordCount * fpw` — whenever the shuffle oracles return permutations of
their inputs, which a JavaScript comparator sort always does. -/
theorem c1_queue_is_permutation (wd : List WordData) (mode : GameMode)
    (fpw : Nat) (wo : List Nat) (fo : Nat → List Nat)
    (fs : List QuestionCoordinate → List QuestionCoordinate)
    (hne : wd ≠ [])
    (huni : ∀ w ∈ wd, w.forms.length = fpw)
    (hwo : wo.Perm (List.range wd.length))
    (hfo : ∀ i ∈ wo, (fo i).Perm (List.range fpw))
    (hfs : ∀ l, (fs l).Perm l) :
    (generateQuestionQueue wd mode wo fo fs).Perm
        (fullCrossProduct wd.length fpw) ∧
    (generateQuestionQueue wd mode wo fo fs).Nodup ∧
    (∀ wi fi, wi < wd.length → fi < fpw →
      (⟨wi, fi⟩ : QuestionCoordinate) ∈ generateQuestionQueue wd mode wo fo fs) ∧
    (generateQuestionQueue wd mode wo fo fs).length = wd.length * fpw := by
  have hperm : (generateQuestionQueue wd mode wo fo fs).Perm
      (fullCrossProduct wd.length fpw) := by
    unfold generateQuestionQueue
    rw [if_neg (fun h => hne (List.length_eq_zero.mp h))]
    cases mode with
    | sequential => rw [seqQueue_eq_cross wd fpw huni]
    | wordRandom =>
        have h1 : (wo.flatMap fun wi => (fo wi).map fun fi =>
              (⟨wi, fi⟩ : QuestionCoordinate)).Perm
            (wo.flatMap fun wi => (List.range fpw).map fun fi =>
              (⟨wi, fi⟩ : QuestionCoordinate)) :=
          List.Perm.flatMap_left wo fun wi hwi => (hfo wi hwi).map _
        have h2 : (wo.flatMap fun wi => (List.range fpw).map fun fi =>
              (⟨wi, fi⟩ : QuestionCoordinate)).Perm
            ((List.range wd.length).flatMap fun wi => (List.range fpw).map fun fi =>
              (⟨wi, fi⟩ : QuestionCoordinate)) :=
          List.Perm.flatMap_right _ hwo
        rw [fullCrossProduct_eq]
        exact h1.trans h2
    | fullyRandom =>
        rw [seqQueue_eq_cross wd fpw huni] at *
        exact hfs _
  refine ⟨hperm, hperm.nodup_iff.mpr (fullCrossProduct_nodup _ _), ?_, ?_⟩
  · intro wi fi hw hf
    exact hperm.mem_iff.mpr (mem_fullCrossProduct hw hf)
  · rw [hperm.length_eq, length_fullCrossProduct]

/-- Witness for C1: on the sample 2-by-3 store in word-random mode, with
concrete shuffles, the queue has no duplicates and length 6. -/
theorem c1_queue_is_permutation_witness :
    (generateQuestionQueue sampleStore GameMode.wordRandom [1, 0]
        (fun _ => [2, 0, 1]) id).Nodup ∧
    (generateQuestionQueue sampleStore GameMode.wordRandom [1, 0]
        (fun _ => [2, 0, 1]) id).length = sampleStore.length * 3 := by
  have h := c1_queue_is_permutation sampleStore GameMode.wordRandom 3 [1, 0]
    (fun _ => [2, 0, 1]) id (by decide) (by decide) (by decide)
    (by decide) (fun l => List.Perm.refl l)
  exact ⟨h.2.1, h.2.2.2⟩

/-- C7: the sequential order is lexicographic.  The sequential queue is
pairwise increasing in the lexicographic order on coordinates for every
store, equals the full cross product on stores of uniform form count, and
on the sample 2-by-3 store the queue builder returns the six coordinates
(0,0) (0,1) (0,2) (1,0) (1,1) (1,2) whatever the shuffle oracles are — the
builder is a pure function of the store in sequential mode, so every call
returns this same queue. -/
theorem c7_sequential_lexicographic :
    (∀ wd : List WordData, (seqQueue wd).Pairwise qcLex) ∧
    (∀ (wd : List WordData) (fpw : Nat), (∀ w ∈ wd, w.forms.length = fpw) →
      seqQueue wd = fullCrossProduct wd.length fpw) ∧
    (∀ (wo : List Nat) (fo : Nat → List Nat)
        (fs : List QuestionCoordinate → List QuestionCoordinate),
      generateQuestionQueue sampleStore GameMode.sequential wo fo fs
        = [⟨0, 0⟩, ⟨0, 1⟩, ⟨0, 2⟩, ⟨1, 0⟩, ⟨1, 1⟩, ⟨1, 2⟩]) := by
  refine ⟨?_, fun wd fpw h => seqQueue_eq_cross wd fpw h, ?_⟩
  · intro wd
    unfold seqQueue
    rw [List.pairwise_flatMap]
    constructor
    · intro wi _
      rw [List.pairwise_map]
      exact (List.pairwise_lt_range _).imp fun h => Or.inr ⟨rfl, h⟩
    · refine (List.pairwise_lt_range _).imp ?_
      intro a b hab x hx y hy
      rw [List.mem_map] at hx hy
      obtain ⟨fa, -, rfl⟩ := hx
      obtain ⟨fb, -, rfl⟩ := hy
      exact Or.inl hab
  · intro wo fo fs
    rw [generateQuestionQueue_sequential]
    rfl

/-- Witness for C7: the cross-product equality at the sample store. -/
theorem c7_sequential_lexicographic_witness :
    seqQueue sampleStore = fullCrossProduct sampleStore.length 3 :=
  c7_sequential_lexicographic.2.1 sampleStore 3 (by decide)

/-- The step-1 fold body of `generateWrongAnswers`: append a same-verb form
value when it differs from the correct answer and fewer than 3 are
collected. -/
def wrongStep1 (correctAnswer : String) (acc : List String) (form : String) :
    List String :=
  if form ≠ correctAnswer ∧ acc.length < 3 then acc ++ [form] else acc

/-- The step-2 fold body of `generateWrongAnswers`: append another word's
value at the same form key when it is non-empty, fresh, and fewer than 3
are collected. -/
def wrongStep2 (currentWordIndex : Nat) (currentForm : String)
    (acc : List String) (p : Nat × WordData) : List String :=
  if p.1 ≠ currentWordIndex then
    match p.2.forms.lookup currentForm with
    | some v => if v ≠ "" ∧ v ∉ acc ∧ acc.length < 3 then acc ++ [v] else acc
    | none => acc
  else acc

/-- `generateWrongAnswers` restated through the named fold bodies. -/
theorem generateWrongAnswers_def (c : String) (i : Nat) (f : String)
    (wd : List WordData) :
    generateWrongAnswers c i f wd
      = (if (((wd.getD i default).forms.map Prod.snd).foldl (wrongStep1 c) []).length < 3
         then wd.enum.foldl (wrongStep2 i f)
                (((wd.getD i default).forms.map Prod.snd).foldl (wrongStep1 c) [])
         else ((wd.getD i default).forms.map Prod.snd).foldl (wrongStep1 c) []).take 3 :=
  rfl

/-- Step 1 in closed form: the fold collects, in declared order, the values
different from the correct answer, up to the room left below 3. -/
theorem foldl_wrongStep1 (c : String) (l : List String) : ∀ acc : List String,
    l.foldl (wrongStep1 c) acc
      = acc ++ ((l.filter fun x => decide (x ≠ c)).take (3 - acc.length)) := by
  induction l with
  | nil => intro acc; simp
  | cons x l ih =>
      intro acc
      rw [List.foldl_cons]
      by_cases hx : x ≠ c ∧ acc.length < 3
      · rw [show wrongStep1 c acc x = acc ++ [x] from if_pos hx, ih (acc ++ [x]),
            List.filter_cons, if_pos (by simpa using hx.1)]
        have h2 : 3 - acc.length = (3 - (acc ++ [x]).length) + 1 := by
          rw [List.length_append]
          simp only [List.length_cons, List.length_nil]
          omega
        rw [h2, List.take_succ_cons, List.append_assoc, List.singleton_append]
      · rw [show wrongStep1 c acc x = acc from if_neg hx, ih acc]
        by_cases hxc : x = c
        · rw [List.filter_cons, if_neg (by simp [hxc])]
        · have hlen : ¬acc.length < 3 := fun h => hx ⟨hxc, h⟩
          have h0 : 3 - acc.length = 0 := by omega
          rw [List.filter_cons, if_pos (by simpa using hxc), h0,
              List.take_zero, List.take_zero]

/-- Step 1, as the specification states it: the same verb's other form
values in declared order, up to 3. -/
def step1Distractors (correctAnswer : String) (w : WordData) : List String :=
  ((w.forms.map Prod.snd).filter fun x => decide (x ≠ correctAnswer)).take 3

/-- Step 1 from the empty accumulator gives exactly the spec's step 1. -/
theorem foldl_wrongStep1_nil (c : String) (w : WordData) :
    (w.forms.map Prod.snd).foldl (wrongStep1 c) [] = step1Distractors c w := by
  rw [foldl_wrongStep1]
  simp [step1Distractors]

/-- The step-1 result stays within the current verb's form values and never
contains the correct answer, and its length is at most 3. -/
theorem step1Distractors_spec (c : String) (w : WordData) :
    (∀ x ∈ step1Distractors c w, x ∈ w.forms.map Prod.snd ∧ x ≠ c) ∧
    (step1Distractors c w).length ≤ 3 := by
  constructor
  · intro x hx
    have hx1 := List.take_subset 3 _ hx
    rw [List.mem_filter] at hx1
    exact ⟨hx1.1, by simpa using hx1.2⟩
  · rw [step1Distractors, List.length_take]
    exact Nat.min_le_left _ _

/-- The usable cross-verb candidate values of step 2: scanning a list of
indexed words, each word at another index contributes its value at the
form key, when present. -/
def candVals (i : Nat) (f : String) (l : List (Nat × WordData)) : List String :=
  l.filterMap fun p => if p.1 ≠ i then p.2.forms.lookup f else none

/-- Each step-2 fold step either keeps the accumulator or appends one
fresh, non-empty value found at the form key of a word at another index,
while fewer than 3 are collected. -/
theorem wrongStep2_cases (i : Nat) (f : String) (acc : List String)
    (p : Nat × WordData) :
    wrongStep2 i f acc p = acc ∨
    ∃ v, p.1 ≠ i ∧ p.2.forms.lookup f = some v ∧ v ≠ "" ∧ v ∉ acc ∧
      acc.length < 3 ∧ wrongStep2 i f acc p = acc ++ [v] := by
  unfold wrongStep2
  by_cases hp : p.1 ≠ i
  · rw [if_pos hp]
    cases hl : p.2.forms.lookup f with
    | none => exact Or.inl rfl
    | some v =>
        by_cases hg : v ≠ "" ∧ v ∉ acc ∧ acc.length < 3
        · exact Or.inr ⟨v, hp, rfl, hg.1, hg.2.1, hg.2.2, if_pos hg⟩
        · exact Or.inl (if_neg hg)
  · rw [if_neg hp]
    exact Or.inl rfl

/-- The step-2 fold preserves freedom from duplicates: every appended value
is checked against the values already collected. -/
theorem foldl_wrongStep2_nodup (i : Nat) (f : String) :
    ∀ (l : List (Nat × WordData)) (acc : List String), acc.Nodup →
      (l.foldl (wrongStep2 i f) acc).Nodup := by
  intro l
  induction l with
  | nil => exact fun acc h => h
  | cons p l ih =>
      intro acc h
      rw [List.foldl_cons]
      refine ih _ ?_
      rcases wrongStep2_cases i f acc p with he | ⟨v, -, -, -, hv, -, he⟩
      · rw [he]; exact h
      · rw [he, List.nodup_append]
        refine ⟨h, List.nodup_singleton v, fun x hx hx1 => ?_⟩
        rw [List.mem_singleton] at hx1
        subst hx1
        exact hv hx

/-- The step-2 fold only adds values drawn from lookups at other indices:
any property of those lookups and of the accumulator carries over. -/
theorem foldl_wrongStep2_pred (i : Nat) (f : String) (P : String → Prop) :
    ∀ (l : List (Nat × WordData)) (acc : List String),
      (∀ p ∈ l, ∀ v, p.1 ≠ i → p.2.forms.lookup f = some v → P v) →
      (∀ x ∈ acc, P x) → ∀ x ∈ l.foldl (wrongStep2 i f) acc, P x := by
  intro l
  induction l with
  | nil => exact fun acc _ h => h
  | cons p l ih =>
      intro acc hl h
      rw [List.foldl_cons]
      refine ih _ (fun q hq => hl q (List.mem_cons_of_mem p hq)) ?_
      rcases wrongStep2_cases i f acc p with he | ⟨v, hp, hlk, -, -, -, he⟩
      · rw [he]; exact h
      · rw [he]
        intro x hx
        rcases List.mem_append.mp hx with hx | hx
        · exact h x hx
        · rw [List.mem_singleton] at hx
          rw [hx]
          exact hl p (List.mem_cons_self p l) v hp hlk

/-- The step-2 fold never grows the collection past 3. -/
theorem foldl_wrongStep2_length (i : Nat) (f : String) :
    ∀ (l : List (Nat × WordData)) (acc : List String), acc.length ≤ 3 →
      (l.foldl (wrongStep2 i f) acc).length ≤ 3 := by
  intro l
  induction l with
  | nil => exact fun acc h => h
  | cons p l ih =>
      intro acc h
      rw [List.foldl_cons]
      rcases wrongStep2_cases i f acc p with he | ⟨v, -, -, -, -, hlt, he⟩
      · rw [he]; exact ih acc h
      · rw [he]
        refine ih _ ?_
        rw [List.length_append]
        simp only [List.length_cons, List.length_nil]
        omega

/-- Step 2 in closed form: when the candidate values are pairwise distinct,
non-empty and absent from the accumulator, the fold appends them in store
order up to the room left below 3. -/
theorem foldl_wrongStep2_closed (i : Nat) (f : String) :
    ∀ (l : List (Nat × WordData)) (acc : List String),
      (candVals i f l).Nodup →
      (∀ v ∈ candVals i f l, v ≠ "" ∧ v ∉ acc) →
      l.foldl (wrongStep2 i f) acc
        = acc ++ (candVals i f l).take (3 - acc.length) := by
  intro l
  induction l with
  | nil => intro acc _ _; simp [candVals]
  | cons p l ih =>
      intro acc hnd hfresh
      rw [List.foldl_cons]
      by_cases hp : p.1 ≠ i
      · cases hl : p.2.forms.lookup f with
        | none =>
            have hc : candVals i f (p :: l) = candVals i f l := by
              unfold candVals
              rw [List.filterMap_cons_none (by rw [if_pos hp, hl])]
            rw [hc] at hnd hfresh
            rw [show wrongStep2 i f acc p = acc from by
                  unfold wrongStep2; rw [if_pos hp, hl],
                hc]
            exact ih acc hnd hfresh
        | some v =>
            have hc : candVals i f (p :: l) = v :: candVals i f l := by
              unfold candVals
              rw [List.filterMap_cons_some (by rw [if_pos hp, hl])]
            rw [hc] at hnd hfresh
            rw [hc]
            have hvne : v ≠ "" := (hfresh v (List.mem_cons_self v _)).1
            have hvacc : v ∉ acc := (hfresh v (List.mem_cons_self v _)).2
            have hvcand : v ∉ candVals i f l := (List.nodup_cons.mp hnd).1
            by_cases hlen : acc.length < 3
            · rw [show wrongStep2 i f acc p = acc ++ [v] from by
                    unfold wrongStep2
                    rw [if_pos hp, hl]
                    show (if v ≠ "" ∧ v ∉ acc ∧ acc.length < 3
                        then acc ++ [v] else acc) = acc ++ [v]
                    rw [if_pos ⟨hvne, hvacc, hlen⟩]]
              rw [ih (acc ++ [v]) (List.nodup_cons.mp hnd).2 ?hfresh2]
              case hfresh2 =>
                intro u hu
                refine ⟨(hfresh u (List.mem_cons_of_mem v hu)).1, fun hmem => ?_⟩
                rcases List.mem_append.mp hmem with h1 | h1
                · exact (hfresh u (List.mem_cons_of_mem v hu)).2 h1
                · rw [List.mem_singleton] at h1
                  rw [h1] at hu
                  exact hvcand hu
              have h2 : 3 - acc.length = (3 - (acc ++ [v]).length) + 1 := by
                rw [List.length_append]
                simp only [List.length_cons, List.length_nil]
                omega
              rw [h2, List.take_succ_cons, List.append_assoc, List.singleton_append]
            · rw [show wrongStep2 i f acc p = acc from by
                    unfold wrongStep2
                    rw [if_pos hp, hl]
                    show (if v ≠ "" ∧ v ∉ acc ∧ acc.length < 3
                        then acc ++ [v] else acc) = acc
                    rw [if_neg (fun h => hlen h.2.2)]]
              have h0 : 3 - acc.length = 0 := by omega
              rw [ih acc (List.nodup_cons.mp hnd).2
                    (fun u hu => hfresh u (List.mem_cons_of_mem v hu)),
                  h0, List.take_zero, List.take_zero]
      · have hc : candVals i f (p :: l) = candVals i f l := by
          unfold candVals
          rw [List.filterMap_cons_none (by rw [if_neg hp])]
        rw [hc] at hnd hfresh
        rw [show wrongStep2 i f acc p = acc from by unfold wrongStep2; rw [if_neg hp],
            hc]
        exact ih acc hnd hfresh

/-- `generateWrongAnswers` in closed form: under the same freshness
conditions, it is the spec's step 1 followed by the candidate values of
step 2, truncated to 3 in total. -/
theorem generateWrongAnswers_closed (c : String) (i : Nat) (f : String)
    (wd : List WordData)
    (hnd : (candVals i f wd.enum).Nodup)
    (hfresh : ∀ v ∈ candVals i f wd.enum,
      v ≠ "" ∧ v ∉ (wd.getD i default).forms.map Prod.snd) :
    generateWrongAnswers c i f wd
      = step1Distractors c (wd.getD i default)
        ++ (candVals i f wd.enum).take
             (3 - (step1Distractors c (wd.getD i default)).length) := by
  rw [generateWrongAnswers_def, foldl_wrongStep1_nil]
  have ht1 := (step1Distractors_spec c (wd.getD i default)).2
  have hfresh2 : ∀ v ∈ candVals i f wd.enum,
      v ≠ "" ∧ v ∉ step1Distractors c (wd.getD i default) := by
    intro v hv
    exact ⟨(hfresh v hv).1,
      fun hmem => (hfresh v hv).2
        ((step1Distractors_spec c (wd.getD i default)).1 v hmem).1⟩
  by_cases h : (step1Distractors c (wd.getD i default)).length < 3
  · rw [if_pos h, foldl_wrongStep2_closed i f wd.enum _ hnd hfresh2]
    refine List.take_of_length_le ?_
    rw [List.length_append, List.length_take]
    have := Nat.min_le_left (3 - (step1Distractors c (wd.getD i default)).length)
      (candVals i f wd.enum).length
    omega
  · rw [if_neg h]
    have h0 : 3 - (step1Distractors c (wd.getD i default)).length = 0 := by omega
    rw [h0, List.take_zero, List.append_nil]
    exact List.take_of_length_le ht1

/-- Step 2 as the specification states it: scan the remaining verbs in
store order while fewer than 3 are collected; take the value at the same
form key provided it is non-empty and not already chosen. -/
def specStep2 (currentWordIndex : Nat) (currentForm : String)
    (acc : List String) (p : Nat × WordData) : List String :=
  if p.1 ≠ currentWordIndex ∧ acc.length < 3 then
    match p.2.forms.lookup currentForm with
    | some v => if v ≠ "" ∧ v ∉ acc then acc ++ [v] else acc
    | none => acc
  else acc

/-- The distractor algorithm exactly as the specification words it
(section 4.2): step 1 takes up to 3 of the same verb's other form values in
declared order; if fewer than 3 were collected, step 2 scans the remaining
verbs in store order for fresh non-empty values at the same form key,
stopping at 3 total. -/
def specPickDistractors (correctAnswer : String) (currentWordIndex : Nat)
    (currentForm : String) (store : List WordData) : List String :=
  let step1 := step1Distractors correctAnswer (store.getD currentWordIndex default)
  if step1.length < 3 then
    store.enum.foldl (specStep2 currentWordIndex currentForm) step1
  else step1

/-- The two step-2 fold bodies agree: the order in which the guards are
tested does not matter. -/
theorem wrongStep2_eq_specStep2 (i : Nat) (f : String) :
    wrongStep2 i f = specStep2 i f := by
  funext acc p
  unfold wrongStep2 specStep2
  by_cases hp : p.1 ≠ i
  · by_cases hlen : acc.length < 3
    · rw [if_pos hp, if_pos ⟨hp, hlen⟩]
      cases hl : p.2.forms.lookup f with
      | none => rfl
      | some v =>
          show (if v ≠ "" ∧ v ∉ acc ∧ acc.length < 3 then acc ++ [v] else acc)
            = if v ≠ "" ∧ v ∉ acc then acc ++ [v] else acc
          by_cases hg : v ≠ "" ∧ v ∉ acc
          · rw [if_pos ⟨hg.1, hg.2, hlen⟩, if_pos hg]
          · rw [if_neg (fun h => hg ⟨h.1, h.2.1⟩), if_neg hg]
    · rw [if_pos hp, if_neg (fun h => hlen h.2)]
      cases hl : p.2.forms.lookup f with
      | none => rfl
      | some v =>
          show (if v ≠ "" ∧ v ∉ acc ∧ acc.length < 3 then acc ++ [v] else acc) = acc
          rw [if_neg (fun h => hlen h.2.2)]
  · rw [if_neg hp, if_neg (fun h => hp h.1)]

/-- `generateWrongAnswers` computes, on every input, exactly the two-step
priority algorithm as the specification words it. -/
theorem generateWrongAnswers_eq_spec (c : String) (i : Nat) (f : String)
    (wd : List WordData) :
    generateWrongAnswers c i f wd = specPickDistractors c i f wd := by
  rw [generateWrongAnswers_def, foldl_wrongStep1_nil]
  unfold specPickDistractors
  have ht1 := (step1Distractors_spec c (wd.getD i default)).2
  by_cases h : (step1Distractors c (wd.getD i default)).length < 3
  · rw [if_pos h, if_pos h, wrongStep2_eq_specStep2]
    refine List.take_of_length_le ?_
    rw [← wrongStep2_eq_specStep2]
    exact foldl_wrongStep2_length i f wd.enum _ ht1
  · rw [if_neg h, if_neg h]
    exact List.take_of_length_le ht1

/-- When every scanned word carries the form key, the candidate count is
the number of scanned words at other indices. -/
theorem candVals_length_eq (i : Nat) (f : String) :
    ∀ l : List (Nat × WordData),
      (∀ p ∈ l, (p.2.forms.lookup f).isSome = true) →
      (candVals i f l).length = (l.filter fun p => decide (p.1 ≠ i)).length := by
  intro l
  induction l with
  | nil => intro _; rfl
  | cons p l ih =>
      intro h
      by_cases hp : p.1 ≠ i
      · obtain ⟨v, hv⟩ :=
          Option.isSome_iff_exists.mp (h p (List.mem_cons_self p l))
        have hc : candVals i f (p :: l) = v :: candVals i f l := by
          unfold candVals
          rw [List.filterMap_cons_some (by rw [if_pos hp]; exact hv)]
        rw [hc, List.filter_cons, if_pos (by simpa using hp)]
        simp only [List.length_cons]
        rw [ih fun q hq => h q (List.mem_cons_of_mem p hq)]
      · have hc : candVals i f (p :: l) = candVals i f l := by
          unfold candVals
          rw [List.filterMap_cons_none (by rw [if_neg hp])]
        rw [hc, List.filter_cons, if_neg (by simpa using hp)]
        exact ih fun q hq => h q (List.mem_cons_of_mem p hq)

/-- At most one entry of the enumerated store sits at the current index, so
at least all but one survive the other-index filter. -/
theorem enum_filter_ne_length (wd : List WordData) (i : Nat) :
    wd.length - 1 ≤ (wd.enum.filter fun p => decide (p.1 ≠ i)).length := by
  rw [← List.countP_eq_length_filter]
  have h1 : List.countP (fun p : Nat × WordData => decide (p.1 ≠ i)) wd.enum
      = List.countP (fun a => decide (a ≠ i)) (List.range wd.length) := by
    rw [← List.enum_map_fst wd, List.countP_map]
    rfl
  have h2 := List.length_eq_countP_add_countP
    (fun a => decide (a = i)) (List.range wd.length)
  have h3 : List.countP (fun a => decide (a = i)) (List.range wd.length) ≤ 1 := by
    have hcnt := List.nodup_iff_count_le_one.mp (List.nodup_range wd.length) i
    calc List.countP (fun a => decide (a = i)) (List.range wd.length)
        = List.count i (List.range wd.length) := by
          rw [List.count_eq_countP]
          exact List.countP_congr fun x _ => by
            simp only [decide_eq_true_eq, beq_iff_eq]
      _ ≤ 1 := hcnt
  have h4 : List.countP (fun a => decide (a ≠ i)) (List.range wd.length)
      = List.countP (fun a => decide ¬(decide (a = i) = true))
          (List.range wd.length) :=
    List.countP_congr fun x _ => by simp
  rw [h1, h4]
  rw [List.length_range] at h2
  omega

/-- Every enumerated entry of a store is one of its words. -/
theorem enum_snd_mem (wd : List WordData) (p : Nat × WordData)
    (hp : p ∈ wd.enum) : p.2 ∈ wd := by
  obtain ⟨hlt, hx⟩ := List.mem_enum hp
  rw [hx]
  exact List.getElem_mem hlt

/-- C3 (amended): the two-step priority algorithm holds verbatim on every
input.  The count consequences hold once the candidate values drawn from
the store are actually usable: a store of at least 4 verbs all carrying the
form key, whose other-verb values at that key are pairwise distinct,
non-empty and disjoint from the current verb's form values, yields exactly
3 distractors; a single-verb store with pairwise distinct form values, one
of which is the correct answer, yields min(3, formsPerWord - 1). -/
theorem c3_distractor_algorithm :
    (∀ (c : String) (i : Nat) (f : String) (wd : List WordData),
      generateWrongAnswers c i f wd = specPickDistractors c i f wd) ∧
    (∀ (c : String) (i : Nat) (f : String) (wd : List WordData),
      4 ≤ wd.length →
      (∀ w ∈ wd, (w.forms.lookup f).isSome = true) →
      (candVals i f wd.enum).Nodup →
      (∀ v ∈ candVals i f wd.enum,
        v ≠ "" ∧ v ∉ (wd.getD i default).forms.map Prod.snd) →
      (generateWrongAnswers c i f wd).length = 3) ∧
    (∀ (c f : String) (w : WordData),
      (w.forms.map Prod.snd).Nodup → c ∈ w.forms.map Prod.snd →
      (generateWrongAnswers c 0 f [w]).length = min 3 (w.forms.length - 1)) := by
  refine ⟨generateWrongAnswers_eq_spec, ?_, ?_⟩
  · intro c i f wd hn hkeys hnd hfresh
    rw [generateWrongAnswers_closed c i f wd hnd hfresh]
    rw [List.length_append, List.length_take]
    have ht1 := (step1Distractors_spec c (wd.getD i default)).2
    have hcand : 3 ≤ (candVals i f wd.enum).length := by
      rw [candVals_length_eq i f wd.enum
        (fun p hp => hkeys p.2 (enum_snd_mem wd p hp))]
      have := enum_filter_ne_length wd i
      omega
    rw [Nat.min_eq_left (by omega)]
    omega
  · intro c f w hw hc
    have hcv : candVals 0 f ([w].enum) = [] := by
      show candVals 0 f [(0, w)] = []
      unfold candVals
      rw [List.filterMap_cons_none (by simp)]
      rfl
    rw [generateWrongAnswers_closed c 0 f [w]
        (by rw [hcv]; exact List.nodup_nil)
        (by rw [hcv]; intro v hv; exact absurd hv (List.not_mem_nil v))]
    rw [hcv, List.take_nil, List.append_nil]
    have hgd : [w].getD 0 default = w := rfl
    rw [hgd]
    have hf : ((w.forms.map Prod.snd).filter fun x => decide (x ≠ c)).length
        = w.forms.length - 1 := by
      rw [← List.countP_eq_length_filter]
      have h2 := List.length_eq_countP_add_countP
        (fun x => decide (x ≠ c)) (w.forms.map Prod.snd)
      have h3 : List.countP (fun x => decide ¬(decide (x ≠ c) = true))
          (w.forms.map Prod.snd) = 1 := by
        have hcount := List.count_eq_one_of_mem hw hc
        rw [List.count_eq_countP] at hcount
        calc List.countP (fun x => decide ¬(decide (x ≠ c) = true))
              (w.forms.map Prod.snd)
            = List.countP (fun x => x == c) (w.forms.map Prod.snd) :=
              List.countP_congr fun x _ => by simp
          _ = 1 := hcount
      rw [List.length_map] at h2
      omega
    rw [step1Distractors, List.length_take, hf]

/-- A single-verb store refuting the claimed count min(3, formsPerWord-1):
its two forms share one value, so the correct answer excludes both and no
distractor at all is produced, although min(3, 2-1) = 1. -/
def c3CexStore : List WordData := [⟨"to do", "fel", [("a", "x"), ("b", "x")]⟩]

/-- Counterexample for C3 as stated: on `c3CexStore` (one verb, 2 forms)
the distractor count is 0, not min(3, formsPerWord-1) = 1. -/
theorem c3_distractor_count_counterexample :
    (generateWrongAnswers "x" 0 "a" c3CexStore).length
      ≠ min 3 ((c3CexStore.getD 0 default).forms.length - 1) := by decide

/-- A 4-verb store with all candidate values usable, for the C3 witness. -/
def c3WitStore : List WordData :=
  [⟨"w0", "r0", [("k", "a0"), ("m", "a1")]⟩,
   ⟨"w1", "r1", [("k", "b1"), ("m", "b2")]⟩,
   ⟨"w2", "r2", [("k", "c1"), ("m", "c2")]⟩,
   ⟨"w3", "r3", [("k", "d1"), ("m", "d2")]⟩]

/-- Witness for C3: the 4-verb store yields exactly 3 distractors, and a
2-form single-verb store with distinct values yields min(3, 2-1) = 1. -/
theorem c3_distractor_algorithm_witness :
    (generateWrongAnswers "a0" 0 "k" c3WitStore).length = 3 ∧
    (generateWrongAnswers "a" 0 "k" [⟨"w", "r", [("k", "a"), ("m", "b")]⟩]).length
      = min 3 ((⟨"w", "r", [("k", "a"), ("m", "b")]⟩ : WordData).forms.length - 1) := by
  constructor
  · exact c3_distractor_algorithm.2.1 "a0" 0 "k" c3WitStore (by decide)
      (by decide) (by decide) (by decide)
  · exact c3_distractor_algorithm.2.2 "a" "k" ⟨"w", "r", [("k", "a"), ("m", "b")]⟩
      (by decide) (by decide)

/-- When the current question resolves with a truthy correct answer and the
session is not terminal, the choice-generation effect installs the shuffled
choice set and the fresh 15-second clock. -/
theorem presentQuestion_eq (wd : List WordData)
    (shuffle : List String → List String) (s : GameState)
    (c : QuestionCoordinate) (w : WordData) (key v : String)
    (hq : getCurrentQuestion wd s = some (c, w, key))
    (hv : w.forms.lookup key = some v) (hne : v ≠ "")
    (hgc : s.gameComplete = false) (hbe : s.bombExploded = false) :
    presentQuestion wd shuffle s
      = { s with
          choices := shuffle (v :: generateWrongAnswers v c.wordIndex key wd),
          timeLeft := 15, showBombWarning := false } := by
  have hlen : wd.length > 0 := by
    by_contra hzero
    have h0 : wd.length = 0 := by omega
    unfold getCurrentQuestion at hq
    rw [if_pos h0] at hq
    cases hq
  unfold presentQuestion
  rw [if_pos ⟨hgc, hbe, hlen⟩, hq]
  dsimp only
  rw [hv]
  dsimp only
  rw [if_pos hne]

/-- C2 (amended): for every question presented, the choice set carries at
most 3 distractors — at most 4 entries — UNCONDITIONALLY; and provided the
current verb's form values are pairwise distinct and no other verb's value
at the question's form key equals the correct answer, the displayed choice
set in addition has no duplicate entries — every distractor differs from
the correct answer and from the others — and contains the correct answer
exactly once. -/
theorem c2_choice_set (wd : List WordData)
    (shuffle : List String → List String) (s : GameState)
    (c : QuestionCoordinate) (w : WordData) (key v : String)
    (hq : getCurrentQuestion wd s = some (c, w, key))
    (hv : w.forms.lookup key = some v) (hne : v ≠ "")
    (hgc : s.gameComplete = false) (hbe : s.bombExploded = false)
    (hshuffle : ∀ l, (shuffle l).Perm l) :
    (generateWrongAnswers v c.wordIndex key wd).length ≤ 3 ∧
    (presentQuestion wd shuffle s).choices.length ≤ 4 ∧
    (((wd.getD c.wordIndex default).forms.map Prod.snd).Nodup →
      (∀ p ∈ wd.enum, p.1 ≠ c.wordIndex → p.2.forms.lookup key ≠ some v) →
      (presentQuestion wd shuffle s).choices.Nodup ∧
      (presentQuestion wd shuffle s).choices.count v = 1) := by
  have hlen3 : (generateWrongAnswers v c.wordIndex key wd).length ≤ 3 := by
    rw [generateWrongAnswers_def, List.length_take]
    exact Nat.min_le_left _ _
  rw [presentQuestion_eq wd shuffle s c w key v hq hv hne hgc hbe]
  have hperm := hshuffle (v :: generateWrongAnswers v c.wordIndex key wd)
  refine ⟨hlen3, ?_, ?_⟩
  · rw [hperm.length_eq, List.length_cons]
    omega
  · intro hnd hcor
    have hstep1nd : (step1Distractors v (wd.getD c.wordIndex default)).Nodup :=
      List.Sublist.nodup (List.take_sublist _ _) (hnd.filter _)
    have hnodupWA : (generateWrongAnswers v c.wordIndex key wd).Nodup := by
      rw [generateWrongAnswers_def, foldl_wrongStep1_nil]
      refine List.Sublist.nodup (List.take_sublist 3 _) ?_
      by_cases h : (step1Distractors v (wd.getD c.wordIndex default)).length < 3
      · rw [if_pos h]
        exact foldl_wrongStep2_nodup _ _ _ _ hstep1nd
      · rw [if_neg h]
        exact hstep1nd
    have hvWA : v ∉ generateWrongAnswers v c.wordIndex key wd := by
      intro hmem
      rw [generateWrongAnswers_def, foldl_wrongStep1_nil] at hmem
      have hmem2 := List.take_subset 3 _ hmem
      by_cases h : (step1Distractors v (wd.getD c.wordIndex default)).length < 3
      · rw [if_pos h] at hmem2
        refine foldl_wrongStep2_pred c.wordIndex key (fun x => x ≠ v) wd.enum
          (step1Distractors v (wd.getD c.wordIndex default))
          (fun p hp u hne' hlk => fun huv => hcor p hp hne' (huv ▸ hlk))
          (fun x hx => ((step1Distractors_spec v _).1 x hx).2)
          v hmem2 rfl
      · rw [if_neg h] at hmem2
        exact ((step1Distractors_spec v _).1 v hmem2).2 rfl
    constructor
    · exact hperm.nodup_iff.mpr (List.nodup_cons.mpr ⟨hvWA, hnodupWA⟩)
    · rw [hperm.count_eq v, List.count_cons_self, List.count_eq_zero.mpr hvWA]

/-- A two-verb store refuting C2 as stated: both verbs carry the value x at
the only form key, so the cross-verb scan offers the correct answer itself
as a distractor, and the displayed choice set shows the correct answer
twice. -/
def c2CexStore : List WordData :=
  [⟨"to teach", "elm", [("k", "x")]⟩, ⟨"to know", "arf", [("k", "x")]⟩]

/-- The session state in which the counterexample question is presented. -/
def c2CexState : GameState := { initialState with loading := false }

/-- Counterexample for C2 as stated: on `c2CexStore` the correct answer is
x, yet the displayed choice set is [x, x] — the lone distractor is NOT
distinct from the correct answer, which appears twice, not exactly once. -/
theorem c2_choice_set_counterexample :
    correctAnswerOf c2CexStore c2CexState = some "x" ∧
    (presentQuestion c2CexStore id c2CexState).choices = ["x", "x"] ∧
    List.count "x" (presentQuestion c2CexStore id c2CexState).choices = 2 := by
  decide

/-- Witness for the amended C2.  On the sample store the fresh sequential
question shows a duplicate-free choice set containing the correct answer
a1 exactly once, with at most 4 entries; and on the duplicate-value
counterexample store — where the distinctness provisos fail — the size
bound still holds. -/
theorem c2_choice_set_witness :
    ((presentQuestion sampleStore id
        { initialState with loading := false }).choices.Nodup ∧
     (presentQuestion sampleStore id
        { initialState with loading := false }).choices.count "a1" = 1 ∧
     (presentQuestion sampleStore id
        { initialState with loading := false }).choices.length ≤ 4) ∧
    (presentQuestion c2CexStore id c2CexState).choices.length ≤ 4 := by
  have h := c2_choice_set sampleStore id { initialState with loading := false }
    ⟨0, 0⟩ ⟨"to do", "fcl", [("past", "a1"), ("present", "a2"), ("noun", "a3")]⟩
    "past" "a1" rfl rfl (by decide) rfl rfl (fun l => List.Perm.refl l)
  have hcex := c2_choice_set c2CexStore id c2CexState
    ⟨0, 0⟩ ⟨"to teach", "elm", [("k", "x")]⟩ "k" "x" rfl rfl (by decide) rfl rfl
    (fun l => List.Perm.refl l)
  exact ⟨⟨(h.2.2 (by decide) (by decide)).1, (h.2.2 (by decide) (by decide)).2,
    h.2.1⟩, hcex.2.1⟩
